import Mathlib

set_option maxRecDepth 8000

/-!
Shallow embedding of the irc-parser engine.

The repository ships only the public header `src/include/irc_parser.h`;
the implementation file `irc_parser.c` documented by that header is not
part of the sources.  The state machine below is therefore modelled from
the specification (grammar table of section 4.1, error taxonomy of
section 7 and buffer discipline of section 3), over the data layout
declared in the header: a reentrant context holding a bounded raw
buffer, a token cursor, a state, a latched error and six optional
callback slots.  Executing a chunk returns the updated context together
with the ordered trace of callback firings (each firing records the
slice handed to the handler) and the number of bytes consumed.
-/

/-- Parsing states, mirroring `enum irc_parser_state` in `irc_parser.h`. -/
inductive irc_parser_state where
  | INIT
  | NICK
  | NAME
  | HOST
  | COMMAND
  | PARAMS
  | TRAILING
  | END
  | ERROR
deriving DecidableEq, Repr

/-- Error codes, mirroring `enum irc_parser_error` in `irc_parser.h`. -/
inductive irc_parser_error where
  | NONE
  | PARSE
  | LENGTH
  | USER
deriving DecidableEq, Repr

/-- Callback firing events: which handler fired and the slice handed to it.
The `onEnd` firing conventionally carries an empty view, so it records no
slice. -/
inductive IrcEvent where
  | onNick (s : List Char)
  | onName (s : List Char)
  | onHost (s : List Char)
  | onCommand (s : List Char)
  | onParam (s : List Char)
  | onEnd
deriving DecidableEq, Repr

/-- Modelled from the spec: the parser context `struct irc_parser_s` of
`irc_parser.h` (the implementation file `irc_parser.c` is missing from the
sources).  `raw` holds the bytes accumulated for the in-progress message,
so the C field `len` is `raw.length`; `last` is the cursor marking where
the current token begins; callbacks are optional handlers receiving the
token slice and returning an abort status (`0` means continue). -/
structure irc_parser_t where
  raw : List Char
  last : Nat
  state : irc_parser_state
  error : irc_parser_error
  on_nick : Option (List Char → Int)
  on_name : Option (List Char → Int)
  on_host : Option (List Char → Int)
  on_command : Option (List Char → Int)
  on_param : Option (List Char → Int)
  on_end : Option (List Char → Int)

/-- Modelled from the spec: latch a sticky fault: `state = ERROR` with the
given code, everything else untouched. -/
def setErr (p : irc_parser_t) (e : irc_parser_error) : irc_parser_t :=
  { p with state := irc_parser_state.ERROR, error := e }

/-- Modelled from the spec: status of invoking an optional callback slot on
a slice; an unbound slot is a no-op and continues (status `0`). -/
def cbStatus (ob : Option (List Char → Int)) (s : List Char) : Int :=
  match ob with
  | none => 0
  | some f => f s

/-- Modelled from the spec: append a consumed byte to the internal buffer
as part of the current token, enforcing the 512-byte message bound
(`LENGTH` fault when the buffer already holds 512 bytes). -/
def pushTok (p : irc_parser_t) (c : Char) (s : irc_parser_state) :
    irc_parser_t × List IrcEvent :=
  if p.raw.length < 512 then
    ({ p with raw := p.raw ++ [c], state := s }, [])
  else (setErr p irc_parser_error.LENGTH, [])

/-- Modelled from the spec: append a consumed delimiter byte and move the
token cursor past it, so the byte belongs to no token slice. -/
def pushSkip (p : irc_parser_t) (c : Char) (s : irc_parser_state) :
    irc_parser_t × List IrcEvent :=
  if p.raw.length < 512 then
    ({ p with raw := p.raw ++ [c], last := p.raw.length + 1, state := s }, [])
  else (setErr p irc_parser_error.LENGTH, [])

/-- Modelled from the spec: complete the current token at a delimiter:
fire the handler with the accumulated slice, append the delimiter, advance
the cursor and move to the next state.  A non-zero handler status latches
`USER`; a full buffer latches `LENGTH` without consuming the byte. -/
def fireTok (p : irc_parser_t) (ob : Option (List Char → Int))
    (mk : List Char → IrcEvent) (c : Char) (s : irc_parser_state) :
    irc_parser_t × List IrcEvent :=
  if p.raw.length < 512 then
    let t := p.raw.drop p.last
    if cbStatus ob t = 0 then
      ({ p with raw := p.raw ++ [c], last := p.raw.length + 1, state := s },
       [mk t])
    else (setErr p irc_parser_error.USER, [mk t])
  else (setErr p irc_parser_error.LENGTH, [])

/-- Modelled from the spec: end of message: fire `on_end` with an empty
view and silently reset to INIT for the next message, keeping callback
bindings; a non-zero `on_end` status latches `USER`. -/
def fireEndAfter (p : irc_parser_t) : irc_parser_t × List IrcEvent :=
  if cbStatus p.on_end [] = 0 then
    ({ p with raw := [], last := 0, state := irc_parser_state.INIT },
     [IrcEvent.onEnd])
  else (setErr p irc_parser_error.USER, [IrcEvent.onEnd])

/-- Modelled from the spec: a terminator byte closes the current token:
fire its handler with the accumulated slice and, when it continues, fire
`on_end` and reset; a non-zero token status aborts with `USER` before any
later firing. -/
def fireTokEnd (p : irc_parser_t) (ob : Option (List Char → Int))
    (mk : List Char → IrcEvent) : irc_parser_t × List IrcEvent :=
  let t := p.raw.drop p.last
  if cbStatus ob t = 0 then
    match fireEndAfter p with
    | (q, evs) => (q, mk t :: evs)
  else (setErr p irc_parser_error.USER, [mk t])

/-- Modelled from the spec: process one byte against the grammar state
machine of section 4.1.  CR and a lone LF are both accepted as message
terminators and are interchangeable in every state; terminators standing
between messages (state INIT with nothing captured) are skipped silently;
control characters inside a non-trailing token latch `PARSE`. -/
def exec1 (p : irc_parser_t) (c : Char) : irc_parser_t × List IrcEvent :=
  match p.state with
  | irc_parser_state.ERROR => (p, [])
  | irc_parser_state.END => (p, [])
  | irc_parser_state.INIT =>
    if c = '\r' ∨ c = '\n' then (p, [])
    else if c.toNat < 32 then (setErr p irc_parser_error.PARSE, [])
    else if c = ':' then pushSkip p c irc_parser_state.NICK
    else if c = ' ' then pushSkip p c irc_parser_state.COMMAND
    else pushTok p c irc_parser_state.COMMAND
  | irc_parser_state.NICK =>
    if c = '\r' ∨ c = '\n' then (setErr p irc_parser_error.PARSE, [])
    else if c.toNat < 32 then (setErr p irc_parser_error.PARSE, [])
    else if c = '!' then fireTok p p.on_nick IrcEvent.onNick c irc_parser_state.NAME
    else if c = '@' then fireTok p p.on_nick IrcEvent.onNick c irc_parser_state.HOST
    else if c = ' ' then fireTok p p.on_nick IrcEvent.onNick c irc_parser_state.COMMAND
    else pushTok p c irc_parser_state.NICK
  | irc_parser_state.NAME =>
    if c = '\r' ∨ c = '\n' then (setErr p irc_parser_error.PARSE, [])
    else if c.toNat < 32 then (setErr p irc_parser_error.PARSE, [])
    else if c = '@' then fireTok p p.on_name IrcEvent.onName c irc_parser_state.HOST
    else if c = ' ' then fireTok p p.on_name IrcEvent.onName c irc_parser_state.COMMAND
    else pushTok p c irc_parser_state.NAME
  | irc_parser_state.HOST =>
    if c = '\r' ∨ c = '\n' then (setErr p irc_parser_error.PARSE, [])
    else if c.toNat < 32 then (setErr p irc_parser_error.PARSE, [])
    else if c = ' ' then fireTok p p.on_host IrcEvent.onHost c irc_parser_state.COMMAND
    else pushTok p c irc_parser_state.HOST
  | irc_parser_state.COMMAND =>
    if c = '\r' ∨ c = '\n' then fireTokEnd p p.on_command IrcEvent.onCommand
    else if c.toNat < 32 then (setErr p irc_parser_error.PARSE, [])
    else if c = ' ' then
      if p.last = p.raw.length then pushSkip p c irc_parser_state.COMMAND
      else fireTok p p.on_command IrcEvent.onCommand c irc_parser_state.PARAMS
    else pushTok p c irc_parser_state.COMMAND
  | irc_parser_state.PARAMS =>
    if c = '\r' ∨ c = '\n' then
      if p.last = p.raw.length then fireEndAfter p
      else fireTokEnd p p.on_param IrcEvent.onParam
    else if c.toNat < 32 then (setErr p irc_parser_error.PARSE, [])
    else if c = ' ' then
      if p.last = p.raw.length then pushSkip p c irc_parser_state.PARAMS
      else fireTok p p.on_param IrcEvent.onParam c irc_parser_state.PARAMS
    else if c = ':' then
      if p.last = p.raw.length then pushSkip p c irc_parser_state.TRAILING
      else pushTok p c irc_parser_state.PARAMS
    else pushTok p c irc_parser_state.PARAMS
  | irc_parser_state.TRAILING =>
    if c = '\r' ∨ c = '\n' then fireTokEnd p p.on_param IrcEvent.onParam
    else pushTok p c irc_parser_state.TRAILING

/-- Modelled from the spec: the byte-consumption loop of
`irc_parser_execute`.  Bytes are processed in order; a context already in
ERROR refuses to consume, and a byte whose processing latches ERROR is not
counted as consumed and stops the call (events fired while processing it,
such as the aborting callback invocation, are kept in the trace). -/
def execLoop : irc_parser_t → List Char → irc_parser_t × List IrcEvent × Nat
  | p, [] => (p, [], 0)
  | p, c :: cs =>
    if p.state = irc_parser_state.ERROR then (p, [], 0)
    else
      match exec1 p c with
      | (p1, evs) =>
        if p1.state = irc_parser_state.ERROR then (p1, evs, 0)
        else
          match execLoop p1 cs with
          | (p2, evs2, n) => (p2, evs ++ evs2, n + 1)

/-- Modelled from the spec: `irc_parser_execute` (declared in
`irc_parser.h`, implemented in the missing `irc_parser.c`): feed a chunk
to the parser, returning the updated context, the ordered trace of
callback firings and the number of bytes consumed. -/
def irc_parser_execute (p : irc_parser_t) (data : List Char) :
    irc_parser_t × List IrcEvent × Nat :=
  execLoop p data

/-- Modelled from the spec: `irc_parser_init` zeroes the counters, sets
`state = INIT` and `error = NONE`, and unbinds all six callbacks. -/
def irc_parser_init (_p : irc_parser_t) : irc_parser_t :=
  { raw := [], last := 0,
    state := irc_parser_state.INIT, error := irc_parser_error.NONE,
    on_nick := none, on_name := none, on_host := none,
    on_command := none, on_param := none, on_end := none }

/-- Modelled from the spec: `irc_parser_reset` is identical to
`irc_parser_init` except that the callback bindings are left untouched. -/
def irc_parser_reset (p : irc_parser_t) : irc_parser_t :=
  { p with raw := [], last := 0,
           state := irc_parser_state.INIT, error := irc_parser_error.NONE }

/-- Modelled from the spec: bind (or unbind) the nick handler slot;
rebinding overwrites. -/
def irc_parser_on_nick (p : irc_parser_t) (cb : Option (List Char → Int)) :
    irc_parser_t :=
  { p with on_nick := cb }

/-- Modelled from the spec: bind (or unbind) the name handler slot. -/
def irc_parser_on_name (p : irc_parser_t) (cb : Option (List Char → Int)) :
    irc_parser_t :=
  { p with on_name := cb }

/-- Modelled from the spec: bind (or unbind) the host handler slot. -/
def irc_parser_on_host (p : irc_parser_t) (cb : Option (List Char → Int)) :
    irc_parser_t :=
  { p with on_host := cb }

/-- Modelled from the spec: bind (or unbind) the command handler slot. -/
def irc_parser_on_command (p : irc_parser_t) (cb : Option (List Char → Int)) :
    irc_parser_t :=
  { p with on_command := cb }

/-- Modelled from the spec: bind (or unbind) the param handler slot. -/
def irc_parser_on_param (p : irc_parser_t) (cb : Option (List Char → Int)) :
    irc_parser_t :=
  { p with on_param := cb }

/-- Modelled from the spec: bind (or unbind) the end handler slot. -/
def irc_parser_on_end (p : irc_parser_t) (cb : Option (List Char → Int)) :
    irc_parser_t :=
  { p with on_end := cb }

/-- Modelled from the spec: `irc_parser_has_error` returns non-zero iff
the parser is in the ERROR state. -/
def irc_parser_has_error (p : irc_parser_t) : Int :=
  if p.state = irc_parser_state.ERROR then 1 else 0

/-- Modelled from the spec: `irc_parser_get_error` returns the latched
error code. -/
def irc_parser_get_error (p : irc_parser_t) : irc_parser_error :=
  p.error

/-- Feeding a list of chunks through successive `irc_parser_execute`
calls on the same context, concatenating the event traces and summing the
consumed counts. -/
def execChunks : irc_parser_t → List (List Char) → irc_parser_t × List IrcEvent × Nat
  | p, [] => (p, [], 0)
  | p, ch :: chs =>
    match irc_parser_execute p ch with
    | (p1, evs, n1) =>
      match execChunks p1 chs with
      | (p2, evs2, n2) => (p2, evs ++ evs2, n1 + n2)

/-- Parser contexts reachable by any sequence of `irc_parser_init`,
callback binder, `irc_parser_execute` and `irc_parser_reset` calls
starting from an `irc_parser_init` call. -/
inductive Reachable : irc_parser_t → Prop where
  | init (q : irc_parser_t) : Reachable (irc_parser_init q)
  | bindNick (p : irc_parser_t) (cb : Option (List Char → Int)) :
      Reachable p → Reachable (irc_parser_on_nick p cb)
  | bindName (p : irc_parser_t) (cb : Option (List Char → Int)) :
      Reachable p → Reachable (irc_parser_on_name p cb)
  | bindHost (p : irc_parser_t) (cb : Option (List Char → Int)) :
      Reachable p → Reachable (irc_parser_on_host p cb)
  | bindCommand (p : irc_parser_t) (cb : Option (List Char → Int)) :
      Reachable p → Reachable (irc_parser_on_command p cb)
  | bindParam (p : irc_parser_t) (cb : Option (List Char → Int)) :
      Reachable p → Reachable (irc_parser_on_param p cb)
  | bindEnd (p : irc_parser_t) (cb : Option (List Char → Int)) :
      Reachable p → Reachable (irc_parser_on_end p cb)
  | exec (p : irc_parser_t) (data : List Char) :
      Reachable p → Reachable (irc_parser_execute p data).1
  | reset (p : irc_parser_t) :
      Reachable p → Reachable (irc_parser_reset p)

/-- An arbitrary concrete context used as the raw-memory argument of
`irc_parser_init` in concrete scenarios. -/
def blankCtx : irc_parser_t :=
  { raw := [], last := 0,
    state := irc_parser_state.INIT, error := irc_parser_error.NONE,
    on_nick := none, on_name := none, on_host := none,
    on_command := none, on_param := none, on_end := none }

/-- A handler that always returns status `0`. -/
def zeroCb : List Char → Int := fun _ => 0

theorem execLoop_nil (p : irc_parser_t) : execLoop p [] = (p, [], 0) := rfl

theorem execLoop_cons (p : irc_parser_t) (c : Char) (cs : List Char) :
    execLoop p (c :: cs) =
      if p.state = irc_parser_state.ERROR then (p, [], 0)
      else
        match exec1 p c with
        | (p1, evs) =>
          if p1.state = irc_parser_state.ERROR then (p1, evs, 0)
          else
            match execLoop p1 cs with
            | (p2, evs2, n) => (p2, evs ++ evs2, n + 1) := rfl

theorem execLoop_error_noop (p : irc_parser_t)
    (h : p.state = irc_parser_state.ERROR) :
    ∀ data : List Char, execLoop p data = (p, [], 0)
  | [] => rfl
  | c :: cs => by rw [execLoop_cons, if_pos h]

theorem execLoop_cons_stop (p : irc_parser_t) (c : Char) (cs : List Char)
    (h : ¬ p.state = irc_parser_state.ERROR)
    (h2 : (exec1 p c).1.state = irc_parser_state.ERROR) :
    execLoop p (c :: cs) = ((exec1 p c).1, (exec1 p c).2, 0) := by
  rw [execLoop_cons, if_neg h]
  rcases hpc : exec1 p c with ⟨p1, evs⟩
  rw [hpc] at h2
  dsimp only
  rw [if_pos h2]

theorem execLoop_cons_go (p : irc_parser_t) (c : Char) (cs : List Char)
    (h : ¬ p.state = irc_parser_state.ERROR)
    (h2 : ¬ (exec1 p c).1.state = irc_parser_state.ERROR) :
    execLoop p (c :: cs) =
      ((execLoop (exec1 p c).1 cs).1,
       (exec1 p c).2 ++ (execLoop (exec1 p c).1 cs).2.1,
       (execLoop (exec1 p c).1 cs).2.2 + 1) := by
  rw [execLoop_cons, if_neg h]
  rcases hpc : exec1 p c with ⟨p1, evs⟩
  rw [hpc] at h2
  dsimp only
  rw [if_neg h2]

theorem execLoop_append (xs : List Char) :
    ∀ (ys : List Char) (p : irc_parser_t),
    execLoop p (xs ++ ys) =
      ((execLoop (execLoop p xs).1 ys).1,
       (execLoop p xs).2.1 ++ (execLoop (execLoop p xs).1 ys).2.1,
       (execLoop p xs).2.2 + (execLoop (execLoop p xs).1 ys).2.2) := by
  induction xs with
  | nil =>
    intro ys p
    simp [execLoop_nil]
  | cons c cs ih =>
    intro ys p
    by_cases h : p.state = irc_parser_state.ERROR
    · rw [List.cons_append, execLoop_error_noop p h (c :: (cs ++ ys)),
          execLoop_error_noop p h (c :: cs)]
      dsimp only
      rw [execLoop_error_noop p h ys]
      simp
    · by_cases h2 : (exec1 p c).1.state = irc_parser_state.ERROR
      · rw [List.cons_append, execLoop_cons_stop p c (cs ++ ys) h h2,
            execLoop_cons_stop p c cs h h2]
        dsimp only
        rw [execLoop_error_noop (exec1 p c).1 h2 ys]
        simp
      · rw [List.cons_append, execLoop_cons_go p c (cs ++ ys) h h2,
            execLoop_cons_go p c cs h h2]
        dsimp only
        rw [ih ys (exec1 p c).1]
        simp only [Prod.mk.injEq, List.append_assoc]
        exact ⟨trivial, trivial, by omega⟩

theorem setErr_raw (p : irc_parser_t) (e : irc_parser_error) :
    (setErr p e).raw = p.raw := rfl

theorem pushTok_raw_le (p : irc_parser_t) (c : Char) (s : irc_parser_state)
    (h : p.raw.length ≤ 512) : (pushTok p c s).1.raw.length ≤ 512 := by
  unfold pushTok
  split <;> simp_all [setErr] <;> omega

theorem pushSkip_raw_le (p : irc_parser_t) (c : Char) (s : irc_parser_state)
    (h : p.raw.length ≤ 512) : (pushSkip p c s).1.raw.length ≤ 512 := by
  unfold pushSkip
  split <;> simp_all [setErr] <;> omega

theorem fireTok_raw_le (p : irc_parser_t) (ob : Option (List Char → Int))
    (mk : List Char → IrcEvent) (c : Char) (s : irc_parser_state)
    (h : p.raw.length ≤ 512) : (fireTok p ob mk c s).1.raw.length ≤ 512 := by
  unfold fireTok
  split
  · dsimp only
    split <;> simp_all [setErr] <;> omega
  · simp_all [setErr]

theorem fireEndAfter_raw_le (p : irc_parser_t)
    (h : p.raw.length ≤ 512) : (fireEndAfter p).1.raw.length ≤ 512 := by
  unfold fireEndAfter
  split <;> simp_all [setErr]

theorem fireTokEnd_raw_le (p : irc_parser_t) (ob : Option (List Char → Int))
    (mk : List Char → IrcEvent)
    (h : p.raw.length ≤ 512) : (fireTokEnd p ob mk).1.raw.length ≤ 512 := by
  unfold fireTokEnd
  dsimp only
  rcases hfe : fireEndAfter p with ⟨q, evs⟩
  have h2 := fireEndAfter_raw_le p h
  rw [hfe] at h2
  split <;> simp_all [setErr]

theorem exec1_raw_le (p : irc_parser_t) (c : Char)
    (h : p.raw.length ≤ 512) : (exec1 p c).1.raw.length ≤ 512 := by
  rcases hs : p.state <;> unfold exec1 <;> rw [hs] <;> dsimp only <;>
    first
      | exact h
      | (split_ifs <;>
          first
            | exact h
            | exact pushTok_raw_le p c _ h
            | exact pushSkip_raw_le p c _ h
            | exact fireTok_raw_le p _ _ c _ h
            | exact fireEndAfter_raw_le p h
            | exact fireTokEnd_raw_le p _ _ h
            | simpa [setErr] using h)

theorem execLoop_raw_le (data : List Char) : ∀ p : irc_parser_t,
    p.raw.length ≤ 512 → (execLoop p data).1.raw.length ≤ 512 := by
  induction data with
  | nil =>
    intro p h
    simpa [execLoop_nil] using h
  | cons c cs ih =>
    intro p h
    by_cases hp : p.state = irc_parser_state.ERROR
    · rw [execLoop_error_noop p hp (c :: cs)]
      exact h
    · by_cases h2 : (exec1 p c).1.state = irc_parser_state.ERROR
      · rw [execLoop_cons_stop p c cs hp h2]
        exact exec1_raw_le p c h
      · rw [execLoop_cons_go p c cs hp h2]
        exact ih _ (exec1_raw_le p c h)

theorem execLoop_consumed_eq (data : List Char) : ∀ p : irc_parser_t,
    ¬ p.state = irc_parser_state.ERROR →
    ¬ (execLoop p data).1.state = irc_parser_state.ERROR →
    (execLoop p data).2.2 = data.length := by
  induction data with
  | nil =>
    intro p _ _
    rfl
  | cons c cs ih =>
    intro p h1 h2
    by_cases hd : (exec1 p c).1.state = irc_parser_state.ERROR
    · exfalso
      rw [execLoop_cons_stop p c cs h1 hd] at h2
      exact h2 hd
    · rw [execLoop_cons_go p c cs h1 hd] at h2 ⊢
      dsimp only at h2 ⊢
      rw [ih (exec1 p c).1 hd h2]
      simp

/-- A context with all six callback slots unbound. -/
def noCallbacks (p : irc_parser_t) : Prop :=
  p.on_nick = none ∧ p.on_name = none ∧ p.on_host = none ∧
  p.on_command = none ∧ p.on_param = none ∧ p.on_end = none

theorem exec1_step_nonctl (p : irc_parser_t) (c : Char)
    (hc : ¬ c.toNat < 32)
    (hs1 : ¬ p.state = irc_parser_state.ERROR)
    (hs2 : ¬ p.state = irc_parser_state.END)
    (hcb : noCallbacks p)
    (hlen : p.raw.length < 512) :
    (exec1 p c).1.raw.length = p.raw.length + 1 ∧
    ¬ (exec1 p c).1.state = irc_parser_state.ERROR ∧
    ¬ (exec1 p c).1.state = irc_parser_state.END ∧
    noCallbacks (exec1 p c).1 := by
  have hterm : ¬ (c = '\r' ∨ c = '\n') := by
    rintro (rfl | rfl) <;> exact hc (by decide)
  obtain ⟨hn1, hn2, hn3, hn4, hn5, hn6⟩ := hcb
  rcases hs : p.state <;> unfold exec1 <;> rw [hs] <;> dsimp only <;>
    first
      | exact absurd hs hs1
      | exact absurd hs hs2
      | (rw [if_neg hterm]
         try rw [if_neg hc]
         try split_ifs
         all_goals
           simp_all [pushTok, pushSkip, fireTok, cbStatus, noCallbacks, setErr])

theorem exec1_full (p : irc_parser_t) (c : Char)
    (hc : ¬ c.toNat < 32)
    (hs1 : ¬ p.state = irc_parser_state.ERROR)
    (hs2 : ¬ p.state = irc_parser_state.END)
    (hlen : ¬ p.raw.length < 512) :
    exec1 p c = (setErr p irc_parser_error.LENGTH, []) := by
  have hterm : ¬ (c = '\r' ∨ c = '\n') := by
    rintro (rfl | rfl) <;> exact hc (by decide)
  rcases hs : p.state <;> unfold exec1 <;> rw [hs] <;> dsimp only <;>
    first
      | exact absurd hs hs1
      | exact absurd hs hs2
      | (rw [if_neg hterm]
         try rw [if_neg hc]
         try split_ifs
         all_goals
           simp_all [pushTok, pushSkip, fireTok])

theorem execLoop_overflow (data : List Char) : ∀ p : irc_parser_t,
    (∀ ch ∈ data, ¬ ch.toNat < 32) →
    ¬ p.state = irc_parser_state.ERROR →
    ¬ p.state = irc_parser_state.END →
    noCallbacks p →
    p.raw.length ≤ 512 →
    512 < p.raw.length + data.length →
    (execLoop p data).1.state = irc_parser_state.ERROR ∧
    (execLoop p data).1.error = irc_parser_error.LENGTH ∧
    (execLoop p data).2.2 < data.length := by
  induction data with
  | nil =>
    intro p _ _ _ _ hle hgt
    exfalso
    simp at hgt
    omega
  | cons c cs ih =>
    intro p hall h1 h2 hcb hle hgt
    have hc : ¬ c.toNat < 32 := hall c (by simp)
    by_cases hfull : p.raw.length < 512
    · obtain ⟨hr, he, hend, hcb2⟩ := exec1_step_nonctl p c hc h1 h2 hcb hfull
      rw [execLoop_cons_go p c cs h1 he]
      dsimp only
      have hrec := ih (exec1 p c).1
        (fun ch hm => hall ch (by simp [hm])) he hend hcb2
        (by omega)
        (by simp only [List.length_cons] at hgt; omega)
      refine ⟨hrec.1, hrec.2.1, ?_⟩
      simp only [List.length_cons]
      omega
    · have hfx := exec1_full p c hc h1 h2 hfull
      have herr : (exec1 p c).1.state = irc_parser_state.ERROR := by
        rw [hfx]
        rfl
      rw [execLoop_cons_stop p c cs h1 herr, hfx]
      refine ⟨rfl, rfl, ?_⟩
      simp only [List.length_cons]
      omega

/-- The scenario context: freshly initialized and with all six callbacks
bound to handlers that always return status 0. -/
def scenarioParser : irc_parser_t :=
  irc_parser_on_end
    (irc_parser_on_param
      (irc_parser_on_command
        (irc_parser_on_host
          (irc_parser_on_name
            (irc_parser_on_nick (irc_parser_init blankCtx) (some zeroCb))
            (some zeroCb))
          (some zeroCb))
        (some zeroCb))
      (some zeroCb))
    (some zeroCb)

/-- The spec scenario input, terminated by CR LF. -/
def scenarioInput : List Char :=
  ":alice!anne@host.example PRIVMSG #chan :hello world".toList ++ ['\r', '\n']

/-- A context latched in the ERROR state with a LENGTH fault. -/
def errCtx : irc_parser_t := setErr blankCtx irc_parser_error.LENGTH

/-- A context mid-nick (after consuming ":alice") whose nick handler
aborts by returning status 1. -/
def abortCtx : irc_parser_t :=
  { raw := ":alice".toList, last := 1,
    state := irc_parser_state.NICK, error := irc_parser_error.NONE,
    on_nick := some (fun _ => 1), on_name := none, on_host := none,
    on_command := none, on_param := none, on_end := none }

/-- A 513-byte terminator-free input whose first byte is the control
character 0x01 (forbidden inside a non-trailing token). -/
def ctlInput : List Char := Char.ofNat 1 :: List.replicate 512 'a'

/-- C1: for a parser immediately after init with all six callbacks bound to
handlers that always return 0, a single execute call on
":alice!anne@host.example PRIVMSG #chan :hello world" followed by CR LF
fires, in this exact order and nothing else, onNick "alice", onName "anne",
onHost "host.example", onCommand "PRIVMSG", onParam "#chan",
onParam "hello world" and onEnd, and execute returns the full input
length. -/
theorem privmsg_scenario :
    (irc_parser_execute scenarioParser scenarioInput).2 =
      ([IrcEvent.onNick ("alice".toList),
        IrcEvent.onName ("anne".toList),
        IrcEvent.onHost ("host.example".toList),
        IrcEvent.onCommand ("PRIVMSG".toList),
        IrcEvent.onParam ("#chan".toList),
        IrcEvent.onParam ("hello world".toList),
        IrcEvent.onEnd], scenarioInput.length) := by rfl

/-- C2: streaming invariance: feeding any list of consecutive chunks
through successive execute calls on the same context produces exactly the
same final context, the same ordered event trace (with identical slice
contents) and the same total consumed count as feeding the concatenated
byte stream in one execute call. -/
theorem streaming_invariance (p : irc_parser_t) (chunks : List (List Char)) :
    execChunks p chunks = irc_parser_execute p chunks.flatten := by
  induction chunks generalizing p with
  | nil => rfl
  | cons ch chs ih =>
    have hstep : execChunks p (ch :: chs) =
        ((execChunks (execLoop p ch).1 chs).1,
         (execLoop p ch).2.1 ++ (execChunks (execLoop p ch).1 chs).2.1,
         (execLoop p ch).2.2 + (execChunks (execLoop p ch).1 chs).2.2) := rfl
    have hjoin : (ch :: chs).flatten = ch ++ chs.flatten := rfl
    rw [hstep, ih ((execLoop p ch).1)]
    unfold irc_parser_execute
    rw [hjoin, execLoop_append ch chs.flatten p]

/-- C3: consumption identity: starting outside the ERROR state, if the
call causes no fault (the context is not in ERROR afterwards, which in
this engine happens exactly when no byte was rejected and no callback
aborted), then execute consumes exactly the chunk's length. -/
theorem consumption_identity (p : irc_parser_t) (data : List Char)
    (h1 : ¬ p.state = irc_parser_state.ERROR)
    (h2 : ¬ (irc_parser_execute p data).1.state = irc_parser_state.ERROR) :
    (irc_parser_execute p data).2.2 = data.length :=
  execLoop_consumed_eq data p h1 h2

/-- Witness for C3: a fault-free PING message is consumed in full. -/
theorem consumption_identity_witness :
    (irc_parser_execute (irc_parser_init blankCtx)
        ("PING :abc".toList ++ ['\r', '\n'])).2.2 =
      ("PING :abc".toList ++ ['\r', '\n']).length :=
  consumption_identity (irc_parser_init blankCtx) _ (by decide) (by decide)

/-- C4: once a context is in the ERROR state, every execute call, on any
input, consumes nothing, fires no callbacks and leaves the whole context
(state and latched error included) unchanged. -/
theorem error_state_noop (p : irc_parser_t) (data : List Char)
    (h : p.state = irc_parser_state.ERROR) :
    irc_parser_execute p data = (p, [], 0) :=
  execLoop_error_noop p h data

/-- Witness for C4 on a concrete LENGTH-latched context. -/
theorem error_state_noop_witness :
    irc_parser_execute errCtx ("JOIN #x".toList) = (errCtx, [], 0) :=
  error_state_noop errCtx ("JOIN #x".toList) (by rfl)

/-- C5 (amended): starting from init (all callbacks unbound) and feeding
513 or more bytes whose first 513 bytes contain no terminator and no other
control character, execute latches ERROR with error LENGTH and returns
strictly less than the input length.  (The original claim, quantified over
every terminator-free input, fails: a grammar-forbidden control byte
latches PARSE first, see the counterexample.) -/
theorem length_overflow (q : irc_parser_t) (data : List Char)
    (h1 : 513 ≤ data.length)
    (h2 : ∀ ch ∈ data.take 513, ¬ ch.toNat < 32) :
    (irc_parser_execute (irc_parser_init q) data).1.state
        = irc_parser_state.ERROR ∧
    (irc_parser_execute (irc_parser_init q) data).1.error
        = irc_parser_error.LENGTH ∧
    (irc_parser_execute (irc_parser_init q) data).2.2 < data.length := by
  have hlen513 : (data.take 513).length = 513 := by
    rw [List.length_take]
    omega
  have hov := execLoop_overflow (data.take 513) (irc_parser_init q) h2
    (by simp [irc_parser_init])
    (by simp [irc_parser_init])
    (by simp [irc_parser_init, noCallbacks])
    (by simp [irc_parser_init])
    (by simp [irc_parser_init, hlen513])
  have happ := execLoop_append (data.take 513) (data.drop 513)
    (irc_parser_init q)
  rw [List.take_append_drop] at happ
  have hnoop := execLoop_error_noop
    (execLoop (irc_parser_init q) (data.take 513)).1 hov.1 (data.drop 513)
  unfold irc_parser_execute
  rw [happ, hnoop]
  dsimp only
  refine ⟨hov.1, hov.2.1, ?_⟩
  have hlt := hov.2.2
  rw [hlen513] at hlt
  omega

/-- Counterexample to C5 as stated: a 513-byte input with no CR and no LF
whose first byte is the control character 0x01 latches PARSE, not
LENGTH. -/
theorem length_overflow_counterexample :
    513 ≤ ctlInput.length ∧
    (∀ ch ∈ ctlInput, ¬ (ch = '\r' ∨ ch = '\n')) ∧
    ¬ (irc_parser_execute (irc_parser_init blankCtx) ctlInput).1.error
        = irc_parser_error.LENGTH := by
  refine ⟨by simp [ctlInput], ?_, ?_⟩
  · intro ch hm
    rcases List.mem_cons.mp hm with h | h
    · subst h
      decide
    · rw [List.eq_of_mem_replicate h]
      decide
  · have hrun : irc_parser_execute (irc_parser_init blankCtx) ctlInput
        = (setErr (irc_parser_init blankCtx) irc_parser_error.PARSE, [], 0) :=
      rfl
    rw [hrun]
    decide

/-- Witness for C5 on 513 letters with no terminator. -/
theorem length_overflow_witness :
    (irc_parser_execute (irc_parser_init blankCtx)
        (List.replicate 513 'a')).1.state = irc_parser_state.ERROR ∧
    (irc_parser_execute (irc_parser_init blankCtx)
        (List.replicate 513 'a')).1.error = irc_parser_error.LENGTH ∧
    (irc_parser_execute (irc_parser_init blankCtx)
        (List.replicate 513 'a')).2.2 < (List.replicate 513 'a').length :=
  length_overflow blankCtx (List.replicate 513 'a')
    (by simp)
    (by
      intro ch hm
      rw [List.eq_of_mem_replicate (List.mem_of_mem_take hm)]
      decide)

/-- C6: a callback firing that returns a non-zero status latches USER with
state ERROR at that firing and suppresses every later firing: the token
helpers return only the aborting event (in particular `on_end` does not
fire after an aborting token callback), a non-zero `on_end` status latches
USER, and once the byte being processed has latched ERROR the whole
execute call halts there, firing nothing further and consuming no later
byte. -/
theorem user_abort_halts :
    (∀ (p : irc_parser_t) (ob : Option (List Char → Int))
        (mk : List Char → IrcEvent) (c : Char) (s : irc_parser_state),
      p.raw.length < 512 → ¬ cbStatus ob (p.raw.drop p.last) = 0 →
      fireTok p ob mk c s =
        (setErr p irc_parser_error.USER, [mk (p.raw.drop p.last)])) ∧
    (∀ (p : irc_parser_t) (ob : Option (List Char → Int))
        (mk : List Char → IrcEvent),
      ¬ cbStatus ob (p.raw.drop p.last) = 0 →
      fireTokEnd p ob mk =
        (setErr p irc_parser_error.USER, [mk (p.raw.drop p.last)])) ∧
    (∀ p : irc_parser_t, ¬ cbStatus p.on_end [] = 0 →
      fireEndAfter p = (setErr p irc_parser_error.USER, [IrcEvent.onEnd])) ∧
    (∀ (p : irc_parser_t) (c : Char) (cs : List Char),
      ¬ p.state = irc_parser_state.ERROR →
      (exec1 p c).1.state = irc_parser_state.ERROR →
      irc_parser_execute p (c :: cs) = ((exec1 p c).1, (exec1 p c).2, 0)) := by
  refine ⟨?_, ?_, ?_, ?_⟩
  · intro p ob mk c s hlen hab
    unfold fireTok
    rw [if_pos hlen]
    dsimp only
    rw [if_neg hab]
  · intro p ob mk hab
    unfold fireTokEnd
    dsimp only
    rw [if_neg hab]
  · intro p hab
    unfold fireEndAfter
    rw [if_neg hab]
  · intro p c cs hp herr
    exact execLoop_cons_stop p c cs hp herr

/-- Witness for C6: an aborting nick handler stops the whole call at the
delimiter that fired it, with USER latched and nothing after the aborting
firing. -/
theorem user_abort_halts_witness :
    irc_parser_execute abortCtx
        ('!' :: ("anne@h X".toList ++ ['\r', '\n']))
      = ((exec1 abortCtx '!').1, (exec1 abortCtx '!').2, 0) ∧
    (exec1 abortCtx '!').1.state = irc_parser_state.ERROR ∧
    (exec1 abortCtx '!').1.error = irc_parser_error.USER ∧
    (exec1 abortCtx '!').2 = [IrcEvent.onNick ("alice".toList)] :=
  ⟨user_abort_halts.2.2.2 abortCtx '!' ("anne@h X".toList ++ ['\r', '\n'])
      (by decide) (by decide),
   by decide, by decide, by decide⟩

/-- C7: on every reachable parser context (any sequence of init, bind,
execute and reset calls starting from init), the count of bytes held in
the internal buffer stays between 0 and 512, so it never exceeds the
512-byte payload capacity of the raw buffer. -/
theorem buffer_length_invariant (p : irc_parser_t) (h : Reachable p) :
    0 ≤ p.raw.length ∧ p.raw.length ≤ 512 := by
  refine ⟨Nat.zero_le _, ?_⟩
  induction h with
  | init q => simp [irc_parser_init]
  | bindNick q cb _ ih => simpa [irc_parser_on_nick] using ih
  | bindName q cb _ ih => simpa [irc_parser_on_name] using ih
  | bindHost q cb _ ih => simpa [irc_parser_on_host] using ih
  | bindCommand q cb _ ih => simpa [irc_parser_on_command] using ih
  | bindParam q cb _ ih => simpa [irc_parser_on_param] using ih
  | bindEnd q cb _ ih => simpa [irc_parser_on_end] using ih
  | exec q data _ ih => exact execLoop_raw_le data q ih
  | reset q _ _ => simp [irc_parser_reset]

/-- Witness for C7 at the freshly initialized context. -/
theorem buffer_length_invariant_witness :
    0 ≤ (irc_parser_init blankCtx).raw.length ∧
    (irc_parser_init blankCtx).raw.length ≤ 512 :=
  buffer_length_invariant (irc_parser_init blankCtx) (Reachable.init blankCtx)

/-- C8: reset sets state INIT, error NONE and zeroes the buffer and
cursor while leaving all six callback bindings exactly as they were;
init performs the same clearing and additionally unbinds all six
callbacks. -/
theorem reset_init_frame (p : irc_parser_t) :
    (irc_parser_reset p).state = irc_parser_state.INIT ∧
    (irc_parser_reset p).error = irc_parser_error.NONE ∧
    (irc_parser_reset p).raw = [] ∧
    (irc_parser_reset p).last = 0 ∧
    (irc_parser_reset p).on_nick = p.on_nick ∧
    (irc_parser_reset p).on_name = p.on_name ∧
    (irc_parser_reset p).on_host = p.on_host ∧
    (irc_parser_reset p).on_command = p.on_command ∧
    (irc_parser_reset p).on_param = p.on_param ∧
    (irc_parser_reset p).on_end = p.on_end ∧
    (irc_parser_init p).state = irc_parser_state.INIT ∧
    (irc_parser_init p).error = irc_parser_error.NONE ∧
    (irc_parser_init p).raw = [] ∧
    (irc_parser_init p).last = 0 ∧
    (irc_parser_init p).on_nick = none ∧
    (irc_parser_init p).on_name = none ∧
    (irc_parser_init p).on_host = none ∧
    (irc_parser_init p).on_command = none ∧
    (irc_parser_init p).on_param = none ∧
    (irc_parser_init p).on_end = none :=
  ⟨rfl, rfl, rfl, rfl, rfl, rfl, rfl, rfl, rfl, rfl,
   rfl, rfl, rfl, rfl, rfl, rfl, rfl, rfl, rfl, rfl⟩

/-- C9: a lone LF is accepted as a message terminator exactly like CR:
processing any byte, LF and CR take the same transition in every state
(so any message terminated by a lone LF completes just as with CR), and
on the concrete lone-LF message "PING :tungsten.example" the command and
trailing fire, onEnd fires, the whole input is consumed and the context
returns to the pristine INIT state ready for the next message. -/
theorem lone_lf_terminates :
    (∀ p : irc_parser_t, exec1 p '\n' = exec1 p '\r') ∧
    irc_parser_execute (irc_parser_init blankCtx)
        ("PING :tungsten.example".toList ++ ['\n'])
      = (irc_parser_init blankCtx,
         [IrcEvent.onCommand ("PING".toList),
          IrcEvent.onParam ("tungsten.example".toList),
          IrcEvent.onEnd],
         ("PING :tungsten.example".toList ++ ['\n']).length) := by
  constructor
  · intro p
    cases hs : p.state <;> unfold exec1 <;> rw [hs] <;> dsimp only <;>
      first
        | rfl
        | rw [if_pos (Or.inr rfl : ('\n' : Char) = '\r' ∨ ('\n' : Char) = '\n'),
              if_pos (Or.inl rfl : ('\r' : Char) = '\r' ∨ ('\r' : Char) = '\n')]
  · rfl

/-- C10: executing an empty chunk from any non-ERROR state consumes
nothing, fires nothing and leaves every field of the context unchanged. -/
theorem execute_nil_noop (p : irc_parser_t)
    (h : ¬ p.state = irc_parser_state.ERROR) :
    irc_parser_execute p [] = (p, [], 0) :=
  rfl

/-- Witness for C10 at the fully bound scenario context. -/
theorem execute_nil_noop_witness :
    irc_parser_execute scenarioParser [] = (scenarioParser, [], 0) :=
  execute_nil_noop scenarioParser (by decide)
